import Mathlib

/-
Verification development for the OpenMeal meal-record store
(`FileSystemStorageService` in `components/MealHistoryCard.tsx`), the
analysis pipeline (`processMeal` / `resumePending`) and the Health Connect
sync bridge (`HealthConnectService.ts`).

The TypeScript code is shallowly embedded: the device filesystem owned by
the store (meal record files, the image blob directory and the index file)
becomes an explicit `StorageState`; every async store operation becomes a
pure function on that state, returning `Except` where the original can
reject.  JS strings stay `String`; a JS value that can be `null`/`undefined`
becomes `Option`; boolean JS truthiness of a string is emptiness.
Timestamps are ISO-8601 strings in the source and are only ever consumed
through `new Date(ts).getTime()`; the embedding writes them as decimal
epoch-millisecond strings and `parseTime` models `getTime`.
-/

namespace OpenMeal

/-- Decimal digits to a number, leftmost first; `none` on a non-digit or
on the empty list. -/
def decDigits : List Char → Option Nat
  | [] => none
  | cs => decDigitsAux cs 0
where
  decDigitsAux : List Char → Nat → Option Nat
    | [], acc => some acc
    | c :: cs, acc =>
      if c.toNat < 48 ∨ 57 < c.toNat then none
      else decDigitsAux cs (acc * 10 + (c.toNat - 48))

/-- Models `new Date(s).getTime()` for the timestamp strings of this
development, which are decimal epoch-millisecond strings.  An empty or
malformed string (NaN in JS) maps to 0; no validated record carries one. -/
def parseTime (s : String) : Int := ((decDigits s.data).getD 0 : Int)

/-- JS whitespace for `String.prototype.trim` (the ASCII part suffices for
the strings of this development). -/
def isJsSpace (c : Char) : Bool := c = ' ' ∨ c = '\t' ∨ c = '\n' ∨ c = '\r'

/-- Models `s.trim()`. -/
def jsTrim (s : String) : String :=
  String.mk (((s.data.dropWhile isJsSpace).reverse.dropWhile isJsSpace).reverse)

/-- Models `s.startsWith(p)`. -/
def jsStartsWith (s p : String) : Bool :=
  p.data.isPrefixOf s.data

/-- The `total_meal_nutritional_values` object of an analysis. -/
structure Totals where
  total_calories : Int
  total_total_carbohydrate_g : Int
  total_protein_g : Int
  total_total_fat_g : Int
deriving Repr, DecidableEq

/-- The structured analysis payload (`analysis` is `any` in the source; the
fields the verified code inspects are `title`, which `convertMealToNutritionRecord`
reads with `?? 'Meal'`, and `total_meal_nutritional_values`).  A JS object
lacking one of them is modeled by `none` in that field. -/
structure Analysis where
  title : Option String
  total_meal_nutritional_values : Option Totals
deriving Repr, DecidableEq

/-- The `EMPTY_ANALYSIS` constant (all-zero totals, no `title` field). -/
def EMPTY_ANALYSIS : Analysis :=
  { title := none
    total_meal_nutritional_values :=
      some { total_calories := 0, total_total_carbohydrate_g := 0
             total_protein_g := 0, total_total_fat_g := 0 } }

/-- The `MealAnalysis` record interface.  `afterImageUri` is optional in the
source and only ever tested for truthiness, so `""` models absent.
`analysis : any` is `null` (`none`) or a structured object. -/
structure MealAnalysis where
  id : String
  timestamp : String
  imageUri : String
  afterImageUri : String
  analysis : Option Analysis
  comment : String
  isLoading : Bool
  hasError : Bool
deriving Repr, DecidableEq

/-- One element of the `meals` array of `index.json`. -/
structure IndexEntry where
  id : String
  timestamp : String
  filename : String
deriving Repr, DecidableEq

/-- The slice of the device filesystem owned by the store: the per-meal
record files (keyed by filename), the image blob directory, and the parsed
content of `index.json` (`lastUpdated` is never read back and is omitted). -/
structure StorageState where
  files : String → Option MealAnalysis
  images : List String
  index : List IndexEntry

/-- The store state right after `initializeStorage` on a fresh install. -/
def emptyState : StorageState :=
  { files := fun _ => none, images := [], index := [] }

/-- Writing a meal record file (`FileSystem.writeAsStringAsync`). -/
def writeFile (name : String) (r : MealAnalysis) (fs : String → Option MealAnalysis) :
    String → Option MealAnalysis :=
  fun x => if x = name then some r else fs x

/-- Deleting a meal record file (`FileSystem.deleteAsync` with `idempotent`). -/
def deleteFile (name : String) (fs : String → Option MealAnalysis) :
    String → Option MealAnalysis :=
  fun x => if x = name then none else fs x

/-- The managed image directory prefix (`this.imagesDir`). -/
def imagesDir : String := "images/"

/-- Per-record filename: `meal_${id}.json`. -/
def mealFilename (mealId : String) : String := "meal_" ++ mealId ++ ".json"

/-- Filename built by `copyImageToStorage`:
`${mealId}${suffix ? '_' + suffix : ''}_${timestamp}.${extension}` where
`extension = sourceUri.split('.').pop() || 'jpg'`. -/
def imageFilename (sourceUri mealId suffix : String) (now : Int) : String :=
  let segs := sourceUri.splitOn "."
  let lastSeg := (segs.getLast?).getD ""
  let extension := if lastSeg = "" then "jpg" else lastSeg
  mealId ++ (if suffix = "" then "" else "_" ++ suffix) ++ "_" ++ toString now ++ "." ++ extension

/-- `copyImageToStorage(sourceUri, mealId, suffix)`: copies the source blob
into the managed image directory — the only part of the store `copyAsync`
touches — and returns the destination URI.  `now` is the `Date.now()`
component of the generated filename.  The copy itself is modeled as always
succeeding (source failures abort record creation and are outside the
claims). -/
def copyImageToStorage (images : List String) (sourceUri mealId suffix : String) (now : Int) :
    String × List String :=
  let destinationUri := imagesDir ++ imageFilename sourceUri mealId suffix now
  (destinationUri, destinationUri :: images)

/-- `saveMealAnalysis(meal)` — the create operation.  Validates
`!meal.id || !meal.timestamp || !meal.imageUri || !meal.analysis`, copies
images not already in managed storage, writes the record file, removes any
index entry with the same id, unshifts the new entry, and enforces the
50-entry retention cap (deleting the evicted record files, not their image
blobs). -/
def saveMealAnalysis (now : Int) (meal : MealAnalysis) (st : StorageState) :
    Except String StorageState :=
  if meal.id = "" ∨ meal.timestamp = "" ∨ meal.imageUri = "" ∨ meal.analysis = none then
    .error "Missing required meal data"
  else
    let p1 :=
      if jsStartsWith meal.imageUri imagesDir then (meal.imageUri, st.images)
      else copyImageToStorage st.images meal.imageUri meal.id "" now
    let p2 :=
      if meal.afterImageUri ≠ "" ∧ ¬ jsStartsWith meal.afterImageUri imagesDir then
        copyImageToStorage p1.2 meal.afterImageUri meal.id "after" now
      else (meal.afterImageUri, p1.2)
    let mealToSave :=
      { meal with imageUri := p1.1, afterImageUri := p2.1 }
    let fname := mealFilename meal.id
    let files1 := writeFile fname mealToSave st.files
    let meals1 := st.index.filter (fun m => m.id ≠ meal.id)
    let meals2 := { id := meal.id, timestamp := meal.timestamp, filename := fname } :: meals1
    if meals2.length > 50 then
      let mealsToRemove := meals2.drop 50
      let files2 := mealsToRemove.foldl (fun fs old => deleteFile old.filename fs) files1
      .ok { files := files2, images := p2.2, index := meals2.take 50 }
    else
      .ok { files := files1, images := p2.2, index := meals2 }

/-- `savePendingMeal(pendingMeal)` — the createPending operation.  Validates
only `!pendingMeal.id || !pendingMeal.timestamp`; copies images when present
and non-blank; stores the record with `analysis: null, isLoading: true,
hasError: false`; updates the index with no retention cap. -/
def savePendingMeal (now : Int) (pendingMeal : MealAnalysis) (st : StorageState) :
    Except String StorageState :=
  if pendingMeal.id = "" ∨ pendingMeal.timestamp = "" then
    .error "Missing required pending meal data"
  else
    let p1 :=
      if pendingMeal.imageUri ≠ "" ∧ jsTrim pendingMeal.imageUri ≠ "" then
        copyImageToStorage st.images pendingMeal.imageUri pendingMeal.id "" now
      else ("", st.images)
    let p2 :=
      if pendingMeal.afterImageUri ≠ "" ∧ jsTrim pendingMeal.afterImageUri ≠ "" then
        copyImageToStorage p1.2 pendingMeal.afterImageUri pendingMeal.id "after" now
      else ("", p1.2)
    let mealToSave : MealAnalysis :=
      { id := pendingMeal.id, timestamp := pendingMeal.timestamp
        imageUri := p1.1, afterImageUri := p2.1
        analysis := none, comment := pendingMeal.comment
        isLoading := true, hasError := false }
    let fname := mealFilename pendingMeal.id
    let files1 := writeFile fname mealToSave st.files
    let meals1 := st.index.filter (fun m => m.id ≠ pendingMeal.id)
    .ok { files := files1, images := p2.2
          index := { id := pendingMeal.id, timestamp := pendingMeal.timestamp
                     filename := fname } :: meals1 }

/-- `saveCommentMeal({id, timestamp, comment})`: writes a record with no
image, `EMPTY_ANALYSIS`, `isLoading: false, hasError: false`, then unshifts
the index entry (no validation, no cap). -/
def saveCommentMeal (cmId cmTimestamp cmComment : String) (st : StorageState) : StorageState :=
  let mealToSave : MealAnalysis :=
    { id := cmId, timestamp := cmTimestamp, imageUri := "", afterImageUri := ""
      analysis := some EMPTY_ANALYSIS, comment := cmComment
      isLoading := false, hasError := false }
  let fname := mealFilename cmId
  let files1 := writeFile fname mealToSave st.files
  let meals1 := st.index.filter (fun m => m.id ≠ cmId)
  { files := files1, images := st.images
    index := { id := cmId, timestamp := cmTimestamp, filename := fname } :: meals1 }

/-- A partial update object for `updateMealAnalysis`.  A field is `some v`
when it is present on the JS object passed in (and so overrides the stored
field under the object spread `{...existingMeal, ...meal}`), `none` when
absent. -/
structure MealPatch where
  id : Option String := none
  timestamp : Option String := none
  imageUri : Option String := none
  afterImageUri : Option String := none
  analysis : Option (Option Analysis) := none
  comment : Option String := none
  isLoading : Option Bool := none
  hasError : Option Bool := none
deriving Repr, DecidableEq

/-- The object spread `{...existingMeal, ...meal}`. -/
def spreadMerge (existingMeal : MealAnalysis) (p : MealPatch) : MealAnalysis :=
  { id := p.id.getD existingMeal.id
    timestamp := p.timestamp.getD existingMeal.timestamp
    imageUri := p.imageUri.getD existingMeal.imageUri
    afterImageUri := p.afterImageUri.getD existingMeal.afterImageUri
    analysis := p.analysis.getD existingMeal.analysis
    comment := p.comment.getD existingMeal.comment
    isLoading := p.isLoading.getD existingMeal.isLoading
    hasError := p.hasError.getD existingMeal.hasError }

/-- A patch carrying every field of `m` (the spread of a full record). -/
def fullPatch (m : MealAnalysis) : MealPatch :=
  { id := some m.id, timestamp := some m.timestamp, imageUri := some m.imageUri
    afterImageUri := some m.afterImageUri, analysis := some m.analysis
    comment := some m.comment, isLoading := some m.isLoading, hasError := some m.hasError }

/-- The descending-timestamp ordering of
`index.meals.sort((a, b) => new Date(b.timestamp).getTime() - new Date(a.timestamp).getTime())`.
`Array.prototype.sort` is a stable sort producing a list ordered by its
comparator; the embedding realizes it with the stable `List.insertionSort`. -/
def indexSortRel (a b : IndexEntry) : Prop :=
  parseTime b.timestamp ≤ parseTime a.timestamp

instance : DecidableRel indexSortRel :=
  fun a b => Int.decLe (parseTime b.timestamp) (parseTime a.timestamp)

instance : IsTotal IndexEntry indexSortRel :=
  ⟨fun a b => Int.le_total (parseTime b.timestamp) (parseTime a.timestamp)⟩

instance : IsTrans IndexEntry indexSortRel :=
  ⟨fun _ _ _ hab hbc => le_trans hbc hab⟩

/-- `updateMealAnalysis(mealId, meal)`: reads the existing record file
(rejecting when it is missing), merges, forces `isLoading: false,
hasError: false`, re-writes the file, syncs the timestamp of the matching
index entry (re-adding it when absent), and re-sorts the whole index by
timestamp descending. -/
def updateMealAnalysis (mealId : String) (meal : MealPatch) (st : StorageState) :
    Except String StorageState :=
  let fname := mealFilename mealId
  match st.files fname with
  | none => .error "meal file missing"
  | some existingMeal =>
    let updatedMeal :=
      { spreadMerge existingMeal meal with isLoading := false, hasError := false }
    let files1 := writeFile fname updatedMeal st.files
    let meals1 :=
      match st.index.findIdx? (fun m => m.id = mealId) with
      | some i =>
        match st.index[i]? with
        | some e => st.index.set i { e with timestamp := updatedMeal.timestamp }
        | none => st.index
      | none =>
        { id := mealId, timestamp := updatedMeal.timestamp, filename := fname } :: st.index
    .ok { files := files1, images := st.images, index := meals1.insertionSort indexSortRel }

/-- `updateMealAnalysisError(mealId)` — the markError operation: reads the
existing record (rejecting when missing), sets `isLoading: false,
hasError: true`, writes it back; the index is untouched. -/
def updateMealAnalysisError (mealId : String) (st : StorageState) :
    Except String StorageState :=
  let fname := mealFilename mealId
  match st.files fname with
  | none => .error "meal file missing"
  | some existingMeal =>
    .ok { st with files :=
            writeFile fname { existingMeal with isLoading := false, hasError := true } st.files }

/-- `getMealById(mealId)`: direct read of `meal_${id}.json`; `null` when the
file is missing or unparsable. -/
def getMealById (mealId : String) (st : StorageState) : Option MealAnalysis :=
  st.files (mealFilename mealId)

/-- `getMealHistory()`: reads the index and every referenced record file,
skipping entries whose file is missing. -/
def getMealHistory (st : StorageState) : List MealAnalysis :=
  st.index.filterMap (fun mealRef => st.files mealRef.filename)

/-- `deleteMeal(mealId)`: removes the index entry when present and deletes
the record file; image blobs are left on disk. -/
def deleteMeal (mealId : String) (st : StorageState) : StorageState :=
  match st.index.find? (fun m => m.id = mealId) with
  | none => st
  | some mealToDelete =>
    { files := deleteFile mealToDelete.filename st.files
      images := st.images
      index := st.index.filter (fun m => m.id ≠ mealId) }

/-- `clearHistory()`: deletes every record file listed in the index and
resets the index; the image directory is left alone. -/
def clearHistory (st : StorageState) : StorageState :=
  { files := st.index.foldl (fun fs mealRef => deleteFile mealRef.filename fs) st.files
    images := st.images
    index := [] }

/-- The `timeRange` argument of `clearHistoryByTimeRange`. -/
inductive TimeRange
  | hour
  | day
  | month
  | year
  | all
deriving Repr, DecidableEq

/-- The `switch (timeRange)` cutoff durations in milliseconds.  The `all`
arm is unreachable in `clearHistoryByTimeRange` (handled before the switch). -/
def rangeDurationMs : TimeRange → Int
  | .hour => 60 * 60 * 1000
  | .day => 24 * 60 * 60 * 1000
  | .month => 30 * 24 * 60 * 60 * 1000
  | .year => 365 * 24 * 60 * 60 * 1000
  | .all => 0

/-- `clearHistoryByTimeRange(timeRange)`: `all` delegates to `clearHistory`;
otherwise partitions the indexed records around `cutoffDate = now - range`
(`mealDate >= cutoffDate` is deleted, the rest kept), deletes the record
files of the deleted partition and rewrites the index with the kept one. -/
def clearHistoryByTimeRange (timeRange : TimeRange) (now : Int) (st : StorageState) :
    StorageState :=
  if timeRange = .all then clearHistory st
  else
    let cutoffDate := now - rangeDurationMs timeRange
    let mealsToDelete := st.index.filter (fun mealRef => cutoffDate ≤ parseTime mealRef.timestamp)
    let mealsToKeep := st.index.filter (fun mealRef => ¬ cutoffDate ≤ parseTime mealRef.timestamp)
    { files := mealsToDelete.foldl (fun fs mealRef => deleteFile mealRef.filename fs) st.files
      images := st.images
      index := mealsToKeep }

/-- `getMealCount()`: the length of the index list. -/
def getMealCount (st : StorageState) : Nat := st.index.length

/-
The analysis pipeline (`processMeal`, `resumePending`, `retryMeal`).  The
external collaborators — `FileSystem.readAsStringAsync` on image URIs and
the three Gemini inference entry points — are oracles supplied by the
environment; each may reject, modeled by `Except`.
-/

/-- The collaborators `processMeal` consumes, plus the wall clock
(`Date.now()`).  Each function may reject with an error message. -/
structure PipelineEnv where
  now : Int
  readImageBase64 : String → Except String String
  analyzeFoodFromText : String → Except String Analysis
  analyzeFood : String → String → Except String Analysis
  analyzeFoodBeforeAfter : String → String → String → Except String Analysis

/-- `MEAL_TIMEOUT_MS`: 24 hours in milliseconds. -/
def MEAL_TIMEOUT_MS : Int := 24 * 60 * 60 * 1000

/-- The inference dispatch inside `processMeal`: text-only when the image
URI is absent or blank (failing fast when the comment is blank too),
before/after when `afterImageUri` is truthy, single-image otherwise. -/
def analyzeDispatch (env : PipelineEnv) (meal : MealAnalysis) : Except String Analysis :=
  if meal.imageUri = "" ∨ jsTrim meal.imageUri = "" then
    if meal.comment = "" ∨ jsTrim meal.comment = "" then
      .error "No image or comment provided for meal analysis"
    else
      env.analyzeFoodFromText meal.comment
  else if meal.afterImageUri ≠ "" then do
    let base64Before ← env.readImageBase64 meal.imageUri
    let base64After ← env.readImageBase64 meal.afterImageUri
    env.analyzeFoodBeforeAfter base64Before base64After meal.comment
  else do
    let base64 ← env.readImageBase64 meal.imageUri
    env.analyzeFood base64 meal.comment

/-- The retry transition inside `processMeal`: when the record carries
`hasError`, persist `retryMeal = {...meal, isLoading: true, hasError: false}`
through `updateMealAnalysis` before calling inference. -/
def retryTransition (meal : MealAnalysis) (st : StorageState) : Except String StorageState :=
  updateMealAnalysis meal.id (fullPatch { meal with isLoading := true, hasError := false }) st

/-- The catch handler shared by every failure path of `processMeal`: try
`updateMealAnalysisError(meal.id)` and absorb its own failure
(`catch (updateError) { console.error(...) }`). -/
def markErrorCaught (mealId : String) (st : StorageState) : StorageState :=
  match updateMealAnalysisError mealId st with
  | .ok st2 => st2
  | .error _ => st

/-- `processMeal(meal)`.  Expiry check first (older than 24 hours → mark
error, return); then the retry transition when `hasError`; then the
inference dispatch; on success, persist the completed meal through
`updateMealAnalysis`.  Every rejection anywhere is caught and turned into
`updateMealAnalysisError` (itself absorbed when it fails), so the promise
always resolves.  The best-effort `writeMealToHealthConnect` call on the
success path only touches the Health Connect state (modeled separately
below), never the meal storage, and its rejection is caught; it is dropped
from this `StorageState`-valued embedding. -/
def processMeal (env : PipelineEnv) (meal : MealAnalysis) (st : StorageState) :
    Except String StorageState :=
  if env.now - parseTime meal.timestamp > MEAL_TIMEOUT_MS then
    match updateMealAnalysisError meal.id st with
    | .ok st2 => .ok st2
    | .error _ => .ok (markErrorCaught meal.id st)
  else
    match (if meal.hasError then retryTransition meal st else .ok st) with
    | .error _ => .ok (markErrorCaught meal.id st)
    | .ok st1 =>
      match analyzeDispatch env meal with
      | .error _ => .ok (markErrorCaught meal.id st1)
      | .ok analysis =>
        let completedMeal :=
          { meal with analysis := some analysis, isLoading := false, hasError := false }
        match updateMealAnalysis meal.id (fullPatch completedMeal) st1 with
        | .error _ => .ok (markErrorCaught meal.id st1)
        | .ok st2 => .ok st2

/-- The `for (const meal of toRetry)` loop of `resumePending`: each
iteration runs `processMeal` inside its own try/catch and continues with the
next meal when it rejects. -/
def resumeLoop (env : PipelineEnv) : List MealAnalysis → StorageState → Except String StorageState
  | [], st => .ok st
  | meal :: rest, st =>
    match processMeal env meal st with
    | .ok st2 => resumeLoop env rest st2
    | .error _ => resumeLoop env rest st

/-- `resumePending()`: lists the records with `isLoading || hasError` and
processes them sequentially, continuing past individual failures. -/
def resumePending (env : PipelineEnv) (st : StorageState) : Except String StorageState :=
  let meals := getMealHistory st
  let toRetry := meals.filter (fun m => m.isLoading || m.hasError)
  resumeLoop env toRetry st

/-- `retryMeal(mealId)`: loads the record by id (rethrowing a not-found
error) and runs `processMeal`. -/
def retryMeal (env : PipelineEnv) (mealId : String) (st : StorageState) :
    Except String StorageState :=
  match getMealById mealId st with
  | none => .error "Meal not found"
  | some meal => processMeal env meal st

/-
The Health Connect sync bridge (`HealthConnectService.ts`).  The secure
version map and the records held by the external datastore form `HCState`;
platform gating, permission state, client initialization, which write
method the native module exposes, and the external write outcome are the
environment.
-/

/-- The Nutrition record payload sent to Health Connect. -/
structure NutritionRecord where
  clientRecordId : String
  clientRecordVersion : Int
  startTime : Int
  endTime : Int
  name : String
  energy : Int
  protein : Int
  totalCarbohydrate : Int
  totalFat : Int
deriving Repr, DecidableEq

/-- The persisted `HC_MEAL_VERSION_MAP` (a JSON record from meal id to the
last successfully synced `clientRecordVersion`), modeled as the partial map
it denotes. -/
abbrev VersionMap := String → Option Int

/-- Reading `map[mealId]` (`undefined` when the key is absent). -/
def vmGet (map : VersionMap) (mealId : String) : Option Int := map mealId

/-- The assignment `map[mealId] = version`. -/
def vmSet (map : VersionMap) (mealId : String) (v : Int) : VersionMap :=
  fun x => if x = mealId then some v else map x

/-- `getNextVersion(mealId)`: `(map[mealId] ?? 0) + 1`. -/
def getNextVersion (map : VersionMap) (mealId : String) : Int :=
  (vmGet map mealId).getD 0 + 1

/-- `convertMealToNutritionRecord(meal)`: `null` when
`!meal?.analysis?.total_meal_nutritional_values`, otherwise a builder taking
the `clientRecordVersion`. -/
def convertMealToNutritionRecord (meal : MealAnalysis) : Option (Int → NutritionRecord) :=
  match meal.analysis with
  | none => none
  | some analysis =>
    match analysis.total_meal_nutritional_values with
    | none => none
    | some totals =>
      some (fun version =>
        { clientRecordId := meal.id
          clientRecordVersion := version
          startTime := parseTime meal.timestamp
          endTime := parseTime meal.timestamp + 60 * 1000
          name := (analysis.title).getD "Meal"
          energy := totals.total_calories
          protein := totals.total_protein_g
          totalCarbohydrate := totals.total_total_carbohydrate_g
          totalFat := totals.total_total_fat_g })

/-- The environment of `writeMealToHealthConnect`: platform/module gating,
the `hasWritePermission()` outcome, `ensureInitialized()`, which of
`insertRecords`/`writeRecords` the native client exposes, and whether the
external write call resolves. -/
structure HCEnv where
  platformAndroid : Bool
  healthConnectAvailable : Bool
  writePermission : Bool
  initOK : Bool
  hasInsertRecords : Bool
  hasWriteRecords : Bool
  writeSucceeds : Bool

/-- The state `writeMealToHealthConnect` acts on: the secure version map and
the records the external health datastore holds. -/
structure HCState where
  versionMap : VersionMap
  externalRecords : List NutritionRecord

/-- `writeMealToHealthConnect(meal)`: gate on platform, live permission and
module availability; compute the next version; bail out when the meal has no
nutrition totals; initialize; attempt the external upsert, and only persist
the incremented version into the map when it succeeded (the catch leaves the
map untouched). -/
def writeMealToHealthConnect (env : HCEnv) (meal : MealAnalysis) (hc : HCState) : HCState :=
  if ¬ (env.platformAndroid ∧ env.writePermission ∧ env.healthConnectAvailable) then hc
  else
    let version := getNextVersion hc.versionMap meal.id
    match convertMealToNutritionRecord meal with
    | none => hc
    | some recordBuilder =>
      let record := recordBuilder version
      if ¬ env.initOK then hc
      else if env.hasInsertRecords ∨ env.hasWriteRecords then
        if env.writeSucceeds then
          { versionMap := vmSet hc.versionMap meal.id version
            externalRecords := hc.externalRecords ++ [record] }
        else hc
      else hc

/-
Shared helper lemmas about the filesystem primitives.
-/

theorem writeFile_self (name : String) (r : MealAnalysis) (fs : String → Option MealAnalysis) :
    writeFile name r fs name = some r := by
  simp [writeFile]

theorem writeFile_ne {x name : String} (h : x ≠ name) (r : MealAnalysis)
    (fs : String → Option MealAnalysis) : writeFile name r fs x = fs x := by
  simp [writeFile, h]

theorem deleteFile_self (name : String) (fs : String → Option MealAnalysis) :
    deleteFile name fs name = none := by
  simp [deleteFile]

theorem deleteFile_ne {x name : String} (h : x ≠ name) (fs : String → Option MealAnalysis) :
    deleteFile name fs x = fs x := by
  simp [deleteFile, h]

theorem mealFilename_inj {a b : String} (h : mealFilename a = mealFilename b) : a = b := by
  unfold mealFilename at h
  have h2 := congrArg String.data h
  simp only [String.data_append, List.append_assoc] at h2
  exact String.ext (List.append_cancel_right (List.append_cancel_left h2))

theorem foldl_deleteFile_apply (l : List IndexEntry) (fs : String → Option MealAnalysis)
    (name : String) :
    (l.foldl (fun f e => deleteFile e.filename f) fs) name
      = if name ∈ l.map (fun e => e.filename) then none else fs name := by
  induction l generalizing fs with
  | nil => simp
  | cons e rest ih =>
    simp only [List.foldl_cons, List.map_cons, List.mem_cons, ih]
    by_cases h1 : name ∈ rest.map (fun e => e.filename)
    · simp [h1]
    · by_cases h2 : name = e.filename
      · simp [h1, h2, deleteFile]
      · simp [h1, h2, deleteFile_ne h2]

theorem updateMealAnalysisError_ok (mealId : String) (st : StorageState) (r : MealAnalysis)
    (h : st.files (mealFilename mealId) = some r) :
    updateMealAnalysisError mealId st
      = .ok { st with
          files := writeFile (mealFilename mealId)
            ({ r with isLoading := false, hasError := true }) st.files } := by
  unfold updateMealAnalysisError
  simp only [h]

/-- The record file content `saveMealAnalysis` writes: the input meal with
its image URIs redirected into managed storage when they were external. -/
def savedMeal (now : Int) (meal : MealAnalysis) : MealAnalysis :=
  let storageImageUri :=
    if jsStartsWith meal.imageUri imagesDir then meal.imageUri
    else imagesDir ++ imageFilename meal.imageUri meal.id "" now
  let storageAfterImageUri :=
    if meal.afterImageUri ≠ "" ∧ ¬ jsStartsWith meal.afterImageUri imagesDir then
      imagesDir ++ imageFilename meal.afterImageUri meal.id "after" now
    else meal.afterImageUri
  { meal with imageUri := storageImageUri, afterImageUri := storageAfterImageUri }

/-- The index entry `saveMealAnalysis` and `savePendingMeal` unshift. -/
def savedEntry (meal : MealAnalysis) : IndexEntry :=
  { id := meal.id, timestamp := meal.timestamp, filename := mealFilename meal.id }

/-- The validation predicate of `saveMealAnalysis`. -/
def saveInvalid (meal : MealAnalysis) : Prop :=
  meal.id = "" ∨ meal.timestamp = "" ∨ meal.imageUri = "" ∨ meal.analysis = none

instance (meal : MealAnalysis) : Decidable (saveInvalid meal) := by
  unfold saveInvalid; infer_instance

/-- Folding the retention-cap branch of `saveMealAnalysis` into one state:
when the unshifted index fits the cap, `take 50` is the identity and the
eviction fold runs over the empty `drop 50`. -/
theorem capPack (meals2 : List IndexEntry) (files1 : String → Option MealAnalysis)
    (im : List String) :
    (if meals2.length > 50 then
       ({ files := (meals2.drop 50).foldl (fun fs old => deleteFile old.filename fs) files1
          images := im
          index := meals2.take 50 } : StorageState)
     else { files := files1, images := im, index := meals2 })
    = { files := (meals2.drop 50).foldl (fun fs old => deleteFile old.filename fs) files1
        images := im
        index := meals2.take 50 } := by
  split
  · rfl
  · rename_i h
    have hle : meals2.length ≤ 50 := by omega
    rw [List.drop_eq_nil_of_le hle, List.take_of_length_le hle]
    rfl

/-- The image directory contents after the copies of a `saveMealAnalysis`
call: the after blob when copied, then the before blob when copied, then
the previous contents. -/
def savedImages (now : Int) (meal : MealAnalysis) (images : List String) : List String :=
  (if meal.afterImageUri ≠ "" ∧ ¬ jsStartsWith meal.afterImageUri imagesDir then
     [imagesDir ++ imageFilename meal.afterImageUri meal.id "after" now]
   else []) ++
  (if jsStartsWith meal.imageUri imagesDir then []
   else [imagesDir ++ imageFilename meal.imageUri meal.id "" now]) ++ images

theorem ite_singleton_append {α : Type} (c : Prop) [Decidable c] (a : α) (l : List α) :
    (if c then [a] else []) ++ l = if c then a :: l else l := by
  split <;> rfl

theorem fst_of_ite_pair (c : Prop) [Decidable c] (p q : String × List String) :
    (if c then p else q).1 = if c then p.1 else q.1 := by
  split <;> rfl

theorem snd_of_ite_pair (c : Prop) [Decidable c] (p q : String × List String) :
    (if c then p else q).2 = if c then p.2 else q.2 := by
  split <;> rfl

/-- Normal form of a valid `saveMealAnalysis` call: the blobs are copied,
the record file written, the fresh entry unshifted and the beyond-cap tail
evicted (the `take 50`/`drop 50` collapse to the identity and to `[]` when
the new index fits the cap). -/
theorem saveMealAnalysis_eq (now : Int) (meal : MealAnalysis) (st : StorageState)
    (hv : ¬ saveInvalid meal) :
    saveMealAnalysis now meal st = .ok
      { files := ((savedEntry meal :: st.index.filter (fun m => m.id ≠ meal.id)).drop 50).foldl
          (fun fs old => deleteFile old.filename fs)
          (writeFile (mealFilename meal.id) (savedMeal now meal) st.files)
        images := savedImages now meal st.images
        index := (savedEntry meal :: st.index.filter (fun m => m.id ≠ meal.id)).take 50 } := by
  have hv2 : ¬ (meal.id = "" ∨ meal.timestamp = "" ∨ meal.imageUri = "" ∨
      meal.analysis = none) := hv
  unfold saveMealAnalysis
  rw [if_neg hv2]
  split_ifs
  all_goals simp only [copyImageToStorage, savedMeal, savedEntry, savedImages]
  all_goals rename_i h1 h2
  · rw [if_pos h1, if_pos h2, if_pos h2, if_pos h1]
    rw [← apply_ite Except.ok]
    exact congrArg Except.ok (capPack _ _ _)
  · rw [if_pos h1, if_neg h2, if_neg h2, if_pos h1]
    rw [← apply_ite Except.ok]
    exact congrArg Except.ok (capPack _ _ _)
  · rw [if_neg h1, if_pos h2, if_pos h2, if_neg h1]
    rw [← apply_ite Except.ok]
    exact congrArg Except.ok (capPack _ _ _)
  · rw [if_neg h1, if_neg h2, if_neg h2, if_neg h1]
    rw [← apply_ite Except.ok]
    exact congrArg Except.ok (capPack _ _ _)

/-- Every index entry the store writes references the record file
`meal_${id}.json` of its own id; all states produced by the store satisfy
this. -/
def WellFormedIndex (st : StorageState) : Prop :=
  ∀ e ∈ st.index, e.filename = mealFilename e.id

/-- After a valid `saveMealAnalysis` on a well-formed index, the new record
file is readable under the meal id (the eviction loop only deletes files of
entries with other ids). -/
theorem saveMealAnalysis_getById (now : Int) (meal : MealAnalysis) (st : StorageState)
    (hwf : WellFormedIndex st) (hv : ¬ saveInvalid meal) :
    ∃ st2, saveMealAnalysis now meal st = .ok st2 ∧
      getMealById meal.id st2 = some (savedMeal now meal) := by
  refine ⟨_, saveMealAnalysis_eq now meal st hv, ?_⟩
  unfold getMealById
  dsimp only
  rw [foldl_deleteFile_apply]
  rw [if_neg ?_, writeFile_self]
  intro hmem
  rw [List.mem_map] at hmem
  obtain ⟨e, he, hefn⟩ := hmem
  rw [List.drop_succ_cons] at he
  have he2 : e ∈ st.index.filter (fun m => m.id ≠ meal.id) := List.drop_subset _ _ he
  rw [List.mem_filter] at he2
  have hid : e.id ≠ meal.id := by simpa using he2.2
  exact hid (mealFilename_inj ((hwf e he2.1).symm.trans hefn))

/-- A comment-only record: id, timestamp and comment present, no image. -/
def commentOnlyMeal : MealAnalysis :=
  { id := "m1", timestamp := "1000", imageUri := "", afterImageUri := ""
    analysis := some EMPTY_ANALYSIS, comment := "salad with olive oil"
    isLoading := false, hasError := false }

/-- C2 (counterexample): the claim predicts that a record carrying id,
timestamp and a comment — but no image — passes validation and is stored;
`saveMealAnalysis` rejects exactly this record with its validation error,
because the check requires `imageUri` and `analysis` and ignores `comment`. -/
theorem saveMealAnalysis_rejects_comment_only :
    commentOnlyMeal.id ≠ "" ∧ commentOnlyMeal.timestamp ≠ "" ∧
    commentOnlyMeal.comment ≠ "" ∧
    saveMealAnalysis 0 commentOnlyMeal emptyState = .error "Missing required meal data" := by
  refine ⟨by decide, by decide, by decide, ?_⟩
  rfl

/-- C2 (amended): `saveMealAnalysis` raises its synchronous validation
error exactly when id, timestamp, imageUri or analysis is missing — the
comment plays no role, so a comment-only record with no image is rejected —
and every record supplying all four is stored and readable via
`getMealById`. -/
theorem saveMealAnalysis_validation (now : Int) (meal : MealAnalysis) (st : StorageState)
    (hwf : WellFormedIndex st) :
    ((∃ e, saveMealAnalysis now meal st = .error e) ↔ saveInvalid meal) ∧
    (¬ saveInvalid meal →
      ∃ st2, saveMealAnalysis now meal st = .ok st2 ∧
        getMealById meal.id st2 = some (savedMeal now meal)) := by
  constructor
  · constructor
    · rintro ⟨e, he⟩
      by_contra hv
      obtain ⟨st2, heq, _⟩ := saveMealAnalysis_getById now meal st hwf hv
      rw [heq] at he
      cases he
    · intro hv
      refine ⟨"Missing required meal data", ?_⟩
      unfold saveMealAnalysis saveInvalid at *
      rw [if_pos hv]
  · exact saveMealAnalysis_getById now meal st hwf

/-- A fully valid meal used to exercise the positive branch of C2. -/
def plainValidMeal : MealAnalysis :=
  { id := "m2", timestamp := "1500", imageUri := "photo.jpg", afterImageUri := ""
    analysis := some EMPTY_ANALYSIS, comment := ""
    isLoading := false, hasError := false }

/-- Witness for C2 at a concrete input. -/
theorem saveMealAnalysis_validation_witness :
    ((∃ e, saveMealAnalysis 0 plainValidMeal emptyState = .error e) ↔
      saveInvalid plainValidMeal) ∧
    ∃ st2, saveMealAnalysis 0 plainValidMeal emptyState = .ok st2 ∧
      getMealById plainValidMeal.id st2 = some (savedMeal 0 plainValidMeal) := by
  have h := saveMealAnalysis_validation 0 plainValidMeal emptyState
    (fun e he => absurd he (List.not_mem_nil e))
  exact ⟨h.1, h.2 (by decide)⟩

/-- The record file content `savePendingMeal` writes: pending flags, null
analysis, image URIs copied when present and non-blank. -/
def pendingSavedMeal (now : Int) (pendingMeal : MealAnalysis) : MealAnalysis :=
  { id := pendingMeal.id
    timestamp := pendingMeal.timestamp
    imageUri :=
      if pendingMeal.imageUri ≠ "" ∧ jsTrim pendingMeal.imageUri ≠ "" then
        imagesDir ++ imageFilename pendingMeal.imageUri pendingMeal.id "" now
      else ""
    afterImageUri :=
      if pendingMeal.afterImageUri ≠ "" ∧ jsTrim pendingMeal.afterImageUri ≠ "" then
        imagesDir ++ imageFilename pendingMeal.afterImageUri pendingMeal.id "after" now
      else ""
    analysis := none
    comment := pendingMeal.comment
    isLoading := true
    hasError := false }

/-- Normal form of a valid `savePendingMeal` call: record file written with
pending state, fresh entry unshifted, no retention cap applied. -/
theorem savePendingMeal_eq (now : Int) (m : MealAnalysis) (st : StorageState)
    (hv : ¬ (m.id = "" ∨ m.timestamp = "")) :
    savePendingMeal now m st = .ok
      { files := writeFile (mealFilename m.id) (pendingSavedMeal now m) st.files
        images :=
          (if m.afterImageUri ≠ "" ∧ jsTrim m.afterImageUri ≠ "" then
             [imagesDir ++ imageFilename m.afterImageUri m.id "after" now]
           else []) ++
          (if m.imageUri ≠ "" ∧ jsTrim m.imageUri ≠ "" then
             [imagesDir ++ imageFilename m.imageUri m.id "" now]
           else []) ++ st.images
        index := savedEntry m :: st.index.filter (fun e => e.id ≠ m.id) } := by
  unfold savePendingMeal
  rw [if_neg hv]
  split_ifs
  all_goals simp only [copyImageToStorage, pendingSavedMeal, savedEntry]
  all_goals rename_i h1 h2
  · rw [if_pos h1, if_pos h2]
    rfl
  · rw [if_pos h1, if_neg h2]
    rfl
  · rw [if_neg h1, if_pos h2]
    rfl
  · rw [if_neg h1, if_neg h2]
    rfl

/-- A pending record with neither an image nor a comment. -/
def pendingNoContentMeal : MealAnalysis :=
  { id := "p1", timestamp := "2000", imageUri := "", afterImageUri := ""
    analysis := none, comment := "", isLoading := false, hasError := false }

/-- An index entry for meal id `m${i}`. -/
def indexEntryNum (i : Nat) : IndexEntry :=
  { id := "m" ++ toString i, timestamp := toString (1000 + i)
    filename := mealFilename ("m" ++ toString i) }

/-- A store whose index already holds 50 entries. -/
def fullIndexState : StorageState :=
  { files := fun _ => none, images := [], index := (List.range 50).map indexEntryNum }

/-- C5 (counterexample): on a 50-entry index, `savePendingMeal` accepts a
record with neither image nor comment (the claim says it must be rejected)
and leaves 51 entries in the index (the claim says the cap of 50 is
enforced). -/
theorem savePendingMeal_no_validation_no_cap :
    pendingNoContentMeal.imageUri = "" ∧ pendingNoContentMeal.comment = "" ∧
    fullIndexState.index.length = 50 ∧
    ((savePendingMeal 0 pendingNoContentMeal fullIndexState).toOption.map
      (fun st2 => (st2.index.length, (getMealById "p1" st2).isSome))) = some (51, true) := by
  decide

/-- C5 (amended): `savePendingMeal` tolerates a missing or blank image and
stores the record with `isLoading = true` and `analysis = null`, but it
validates only id and timestamp — a record with neither image nor comment
is accepted — and it enforces no retention cap: the resulting index holds
the fresh entry plus every previous entry with a different id, so it may
exceed 50 entries. -/
theorem savePendingMeal_spec (now : Int) (m : MealAnalysis) (st : StorageState) :
    ((∃ e, savePendingMeal now m st = .error e) ↔ (m.id = "" ∨ m.timestamp = "")) ∧
    (¬ (m.id = "" ∨ m.timestamp = "") →
      ∃ st2, savePendingMeal now m st = .ok st2 ∧
        getMealById m.id st2 = some (pendingSavedMeal now m) ∧
        (pendingSavedMeal now m).isLoading = true ∧
        (pendingSavedMeal now m).analysis = none ∧
        st2.index.length = (st.index.filter (fun e => e.id ≠ m.id)).length + 1) := by
  constructor
  · constructor
    · rintro ⟨e, he⟩
      by_contra hv
      rw [savePendingMeal_eq now m st hv] at he
      cases he
    · intro hv
      refine ⟨"Missing required pending meal data", ?_⟩
      unfold savePendingMeal
      rw [if_pos hv]
  · intro hv
    refine ⟨_, savePendingMeal_eq now m st hv, ?_, rfl, rfl, ?_⟩
    · unfold getMealById
      dsimp only
      rw [writeFile_self]
    · dsimp only
      rw [List.length_cons]

/-- Witness for C5 at a concrete input. -/
theorem savePendingMeal_spec_witness :
    ((∃ e, savePendingMeal 0 pendingNoContentMeal emptyState = .error e) ↔
      (pendingNoContentMeal.id = "" ∨ pendingNoContentMeal.timestamp = "")) ∧
    ∃ st2, savePendingMeal 0 pendingNoContentMeal emptyState = .ok st2 ∧
      getMealById pendingNoContentMeal.id st2
        = some (pendingSavedMeal 0 pendingNoContentMeal) ∧
      (pendingSavedMeal 0 pendingNoContentMeal).isLoading = true ∧
      (pendingSavedMeal 0 pendingNoContentMeal).analysis = none ∧
      st2.index.length
        = (emptyState.index.filter (fun e => e.id ≠ pendingNoContentMeal.id)).length + 1 := by
  have h := savePendingMeal_spec 0 pendingNoContentMeal emptyState
  exact ⟨h.1, h.2 (by decide)⟩

/-
Health Connect sync bridge lemmas (C9, C10).
-/

theorem vmGet_vmSet_self (map : VersionMap) (mealId : String) (v : Int) :
    vmGet (vmSet map mealId v) mealId = some v := by
  simp [vmGet, vmSet]

/-- Shape of a fully successful `writeMealToHealthConnect`: the incremented
version is persisted and the built record lands in the external store. -/
theorem writeMealToHealthConnect_success_eq (env : HCEnv) (meal : MealAnalysis)
    (hc : HCState) (rb : Int → NutritionRecord)
    (hand : env.platformAndroid = true) (hperm : env.writePermission = true)
    (hmod : env.healthConnectAvailable = true) (hinit : env.initOK = true)
    (hmeth : env.hasInsertRecords = true ∨ env.hasWriteRecords = true)
    (hrb : convertMealToNutritionRecord meal = some rb)
    (hw : env.writeSucceeds = true) :
    writeMealToHealthConnect env meal hc =
      { versionMap := vmSet hc.versionMap meal.id (getNextVersion hc.versionMap meal.id)
        externalRecords :=
          hc.externalRecords ++ [rb (getNextVersion hc.versionMap meal.id)] } := by
  unfold writeMealToHealthConnect
  rcases hmeth with h | h <;>
    simp [hrb, hand, hperm, hmod, hinit, hw, h]

/-- A failed external write leaves both the version map and the external
store untouched. -/
theorem writeMealToHealthConnect_failure_eq (env : HCEnv) (meal : MealAnalysis)
    (hc : HCState) (hw : env.writeSucceeds = false) :
    writeMealToHealthConnect env meal hc = hc := by
  unfold writeMealToHealthConnect
  split
  · rfl
  · split
    · rfl
    · split
      · rfl
      · split
        · rw [if_neg (by simp [hw])]
        · rfl

/-- C9: every successful sync stores in the Version Map a version strictly
greater than the stored one (1 when the id was absent); two successive
successful syncs store consecutive versions; a failed external write leaves
the map unchanged, so the next attempt reuses the same version. -/
theorem writeMealToHealthConnect_version_monotonic (env : HCEnv) (meal : MealAnalysis)
    (hc : HCState)
    (hand : env.platformAndroid = true) (hperm : env.writePermission = true)
    (hmod : env.healthConnectAvailable = true) (hinit : env.initOK = true)
    (hmeth : env.hasInsertRecords = true ∨ env.hasWriteRecords = true)
    (hconv : (convertMealToNutritionRecord meal).isSome = true) :
    (env.writeSucceeds = true →
      vmGet (writeMealToHealthConnect env meal hc).versionMap meal.id
          = some ((vmGet hc.versionMap meal.id).getD 0 + 1) ∧
      (vmGet hc.versionMap meal.id).getD 0
          < (vmGet (writeMealToHealthConnect env meal hc).versionMap meal.id).getD 0 ∧
      vmGet (writeMealToHealthConnect env meal
          (writeMealToHealthConnect env meal hc)).versionMap meal.id
          = some ((vmGet hc.versionMap meal.id).getD 0 + 2)) ∧
    (env.writeSucceeds = false →
      writeMealToHealthConnect env meal hc = hc ∧
      getNextVersion (writeMealToHealthConnect env meal hc).versionMap meal.id
          = getNextVersion hc.versionMap meal.id) := by
  obtain ⟨rb, hrb⟩ := Option.isSome_iff_exists.mp hconv
  constructor
  · intro hw
    have h1 := writeMealToHealthConnect_success_eq env meal hc rb
      hand hperm hmod hinit hmeth hrb hw
    have h2 := writeMealToHealthConnect_success_eq env meal
      (writeMealToHealthConnect env meal hc) rb hand hperm hmod hinit hmeth hrb hw
    refine ⟨?_, ?_, ?_⟩
    · rw [h1]
      simp [vmGet_vmSet_self, getNextVersion]
    · rw [h1]
      simp [vmGet_vmSet_self, getNextVersion]
    · rw [h2, h1]
      simp [vmGet_vmSet_self, getNextVersion]
      omega
  · intro hw
    have h := writeMealToHealthConnect_failure_eq env meal hc hw
    exact ⟨h, by rw [h]⟩

/-- C10: a meal whose analysis is null, or whose analysis lacks
`total_meal_nutritional_values`, makes `writeMealToHealthConnect` return
before any external write: the whole Health Connect state — version map and
external records — is unchanged, whatever the environment. -/
theorem writeMealToHealthConnect_skips_unanalyzed (env : HCEnv) (meal : MealAnalysis)
    (hc : HCState)
    (h : meal.analysis = none ∨
         ∃ a, meal.analysis = some a ∧ a.total_meal_nutritional_values = none) :
    writeMealToHealthConnect env meal hc = hc := by
  have hconv : convertMealToNutritionRecord meal = none := by
    unfold convertMealToNutritionRecord
    rcases h with h | ⟨a, ha, hta⟩
    · rw [h]
    · rw [ha]
      simp [hta]
  unfold writeMealToHealthConnect
  split
  · rfl
  · simp [hconv]

/-- The environment in which every Health Connect gate is open. -/
def hcEnvAll : HCEnv :=
  { platformAndroid := true, healthConnectAvailable := true, writePermission := true
    initOK := true, hasInsertRecords := true, hasWriteRecords := false
    writeSucceeds := true }

/-- Same environment except the external write fails. -/
def hcEnvFailWrite : HCEnv := { hcEnvAll with writeSucceeds := false }

/-- A completed meal carrying nutrition totals. -/
def analyzedMeal : MealAnalysis :=
  { id := "m3", timestamp := "1000", imageUri := "images/x.jpg", afterImageUri := ""
    analysis := some EMPTY_ANALYSIS, comment := "", isLoading := false, hasError := false }

/-- The Health Connect state before any sync. -/
def hcEmpty : HCState := { versionMap := fun _ => none, externalRecords := [] }

/-- Witness for C9 at a concrete input. -/
theorem writeMealToHealthConnect_version_monotonic_witness :
    vmGet (writeMealToHealthConnect hcEnvAll analyzedMeal hcEmpty).versionMap
        analyzedMeal.id
      = some ((vmGet hcEmpty.versionMap analyzedMeal.id).getD 0 + 1) ∧
    writeMealToHealthConnect hcEnvFailWrite analyzedMeal hcEmpty = hcEmpty := by
  constructor
  · exact ((writeMealToHealthConnect_version_monotonic hcEnvAll analyzedMeal hcEmpty
      rfl rfl rfl rfl (Or.inl rfl) rfl).1 rfl).1
  · exact ((writeMealToHealthConnect_version_monotonic hcEnvFailWrite analyzedMeal hcEmpty
      rfl rfl rfl rfl (Or.inl rfl) rfl).2 rfl).1

/-- Witness for C10 at a concrete input. -/
theorem writeMealToHealthConnect_skips_unanalyzed_witness :
    writeMealToHealthConnect hcEnvAll pendingNoContentMeal hcEmpty = hcEmpty :=
  writeMealToHealthConnect_skips_unanalyzed hcEnvAll pendingNoContentMeal hcEmpty
    (Or.inl rfl)

/-
Update semantics (C3) and the retry-transition state (C4).
-/

/-- C3: for every stored record and every partial update,
`updateMealAnalysis` leaves the stored record with `isLoading = false` and
`hasError = false` whether or not the patch mentions those fields, and
after the call the index is sorted by timestamp descending. -/
theorem updateMealAnalysis_clears_flags_and_sorts (mealId : String) (p : MealPatch)
    (st : StorageState) (r : MealAnalysis)
    (h : st.files (mealFilename mealId) = some r) :
    ∃ st2, updateMealAnalysis mealId p st = .ok st2 ∧
      getMealById mealId st2
        = some { spreadMerge r p with isLoading := false, hasError := false } ∧
      st2.index.Pairwise indexSortRel := by
  unfold updateMealAnalysis
  simp only [h]
  refine ⟨_, rfl, ?_, ?_⟩
  · unfold getMealById
    dsimp only
    rw [writeFile_self]
  · exact List.sorted_insertionSort indexSortRel _

/-- A stored pending record used to exercise C3. -/
def c3Rec : MealAnalysis :=
  { id := "m1", timestamp := "1000", imageUri := "images/a.jpg", afterImageUri := ""
    analysis := none, comment := "", isLoading := true, hasError := false }

/-- A store holding `c3Rec` plus a second, newer index entry. -/
def c3State : StorageState :=
  { files := writeFile (mealFilename "m1") c3Rec (fun _ => none)
    images := []
    index := [{ id := "m1", timestamp := "1000", filename := mealFilename "m1" },
              { id := "m2", timestamp := "3000", filename := mealFilename "m2" }] }

/-- Witness for C3 at a concrete input. -/
theorem updateMealAnalysis_clears_flags_and_sorts_witness :
    ∃ st2, updateMealAnalysis "m1" { timestamp := some "2000" } c3State = .ok st2 ∧
      getMealById "m1" st2
        = some { spreadMerge c3Rec { timestamp := some "2000" } with
            isLoading := false, hasError := false } ∧
      st2.index.Pairwise indexSortRel :=
  updateMealAnalysis_clears_flags_and_sorts "m1" { timestamp := some "2000" }
    c3State c3Rec rfl

/-- A pending text-only record whose analysis attempt failed:
`analysis = null`, `hasError = true` — exactly the state `savePendingMeal`
followed by `updateMealAnalysisError` leaves on disk. -/
def erroredPendingMeal : MealAnalysis :=
  { id := "m1", timestamp := "1000", imageUri := "", afterImageUri := ""
    analysis := none, comment := "pasta with tomato sauce"
    isLoading := false, hasError := true }

/-- The store holding that record. -/
def erroredPendingState : StorageState :=
  { files := writeFile (mealFilename "m1") erroredPendingMeal (fun _ => none)
    images := []
    index := [{ id := "m1", timestamp := "1000", filename := mealFilename "m1" }] }

/-- C4: the retry transition inside `processMeal`, run on a pending
text-only record that previously failed, persists a record with
`isLoading = false`, `hasError = false` and `analysis = null` — although
the update object it passes sets `isLoading: true` (and that is what it
emits to the UI), `updateMealAnalysis` force-clears both flags, so the
claimed invariant is violated by the stored state. -/
theorem retryTransition_persists_cleared_pending :
    ((retryTransition erroredPendingMeal erroredPendingState).toOption.map
      (fun st2 => (getMealById "m1" st2).map
        (fun r => (r.isLoading, r.hasError, r.analysis))))
      = some (some (false, false, (none : Option Analysis))) := by
  decide

/-
Time-range clear semantics (C6).
-/

/-- C6: for a range other than `all`, `clearHistoryByTimeRange` deletes
exactly the indexed records whose timestamp is at or after
`now - range` — their files become unreadable — keeps every strictly older
record with its file intact, and rewrites the index with the kept set;
`all` empties the index and deletes every indexed record file. -/
theorem clearHistoryByTimeRange_spec (timeRange : TimeRange) (now : Int) (st : StorageState)
    (hnf : (st.index.map (fun e => e.filename)).Nodup) :
    (timeRange ≠ .all →
      (clearHistoryByTimeRange timeRange now st).index
        = st.index.filter
            (fun e => ¬ now - rangeDurationMs timeRange ≤ parseTime e.timestamp) ∧
      (∀ e ∈ st.index, now - rangeDurationMs timeRange ≤ parseTime e.timestamp →
        (clearHistoryByTimeRange timeRange now st).files e.filename = none) ∧
      (∀ e ∈ st.index, ¬ now - rangeDurationMs timeRange ≤ parseTime e.timestamp →
        (clearHistoryByTimeRange timeRange now st).files e.filename
          = st.files e.filename)) ∧
    (timeRange = .all →
      (clearHistoryByTimeRange timeRange now st).index = [] ∧
      ∀ e ∈ st.index, (clearHistoryByTimeRange timeRange now st).files e.filename = none) := by
  constructor
  · intro hr
    unfold clearHistoryByTimeRange
    rw [if_neg hr]
    refine ⟨rfl, ?_, ?_⟩
    · intro e he ht
      dsimp only
      rw [foldl_deleteFile_apply]
      rw [if_pos (List.mem_map.mpr
        ⟨e, List.mem_filter.mpr ⟨he, decide_eq_true ht⟩, rfl⟩)]
    · intro e he ht
      dsimp only
      rw [foldl_deleteFile_apply]
      rw [if_neg ?_]
      intro hmem
      rw [List.mem_map] at hmem
      obtain ⟨d, hd, hdf⟩ := hmem
      rw [List.mem_filter] at hd
      have hde : d = e := List.inj_on_of_nodup_map hnf hd.1 he hdf
      subst hde
      exact ht (of_decide_eq_true hd.2)
  · intro hr
    subst hr
    unfold clearHistoryByTimeRange clearHistory
    rw [if_pos rfl]
    refine ⟨rfl, ?_⟩
    intro e he
    dsimp only
    rw [foldl_deleteFile_apply]
    rw [if_pos (List.mem_map.mpr ⟨e, he, rfl⟩)]

/-- The instant used by the C6 witness. -/
def c6Now : Int := 1000000000000

/-- A placeholder stored record for the C6 witness files. -/
def dummyRec : MealAnalysis :=
  { id := "d", timestamp := "0", imageUri := "", afterImageUri := ""
    analysis := none, comment := "x", isLoading := false, hasError := false }

/-- Index entries aged 30 minutes, 12 hours, 3 days, 40 days and 400 days
relative to `c6Now`. -/
def c6e1 : IndexEntry := { id := "d1", timestamp := "999998200000", filename := mealFilename "d1" }

def c6e2 : IndexEntry := { id := "d2", timestamp := "999956800000", filename := mealFilename "d2" }

def c6e3 : IndexEntry := { id := "d3", timestamp := "999740800000", filename := mealFilename "d3" }

def c6e4 : IndexEntry := { id := "d4", timestamp := "996544000000", filename := mealFilename "d4" }

def c6e5 : IndexEntry := { id := "d5", timestamp := "965440000000", filename := mealFilename "d5" }

def c6Index : List IndexEntry := [c6e1, c6e2, c6e3, c6e4, c6e5]

/-- The C6 witness store: all five record files exist. -/
def c6State : StorageState :=
  { files := c6Index.foldl (fun f e => writeFile e.filename dummyRec f) (fun _ => none)
    images := []
    index := c6Index }

/-- Witness for C6 at the spec's concrete ages: clearing `day` deletes the
30-minute-old and 12-hour-old records, keeps the 3-day-old one, and
clearing `all` empties the index. -/
theorem clearHistoryByTimeRange_spec_witness :
    (clearHistoryByTimeRange .day c6Now c6State).index
      = c6State.index.filter
          (fun e => ¬ c6Now - rangeDurationMs .day ≤ parseTime e.timestamp) ∧
    (clearHistoryByTimeRange .day c6Now c6State).files (mealFilename "d1") = none ∧
    (clearHistoryByTimeRange .day c6Now c6State).files (mealFilename "d2") = none ∧
    (clearHistoryByTimeRange .day c6Now c6State).files (mealFilename "d3")
      = c6State.files (mealFilename "d3") ∧
    (clearHistoryByTimeRange .all c6Now c6State).index = [] := by
  have h := (clearHistoryByTimeRange_spec .day c6Now c6State (by decide)).1 (by decide)
  have h2 := (clearHistoryByTimeRange_spec .all c6Now c6State (by decide)).2 rfl
  refine ⟨h.1, ?_, ?_, ?_, h2.1⟩
  · exact h.2.1 c6e1 (by decide) (by decide)
  · exact h.2.1 c6e2 (by decide) (by decide)
  · exact h.2.2 c6e3 (by decide) (by decide)

/-
Pipeline expiry (C7) and failure absorption (C8).
-/

/-- C7: when the record is more than 24 hours old at call time, `processMeal`
is insensitive to every inference and file-reading collaborator — replacing
them all does not change the result — and it marks the stored record
`hasError = true, isLoading = false` through `updateMealAnalysisError`. -/
theorem processMeal_expired_skips_inference (env : PipelineEnv)
    (rd : String → Except String String)
    (ft : String → Except String Analysis)
    (fi : String → String → Except String Analysis)
    (fba : String → String → String → Except String Analysis)
    (meal : MealAnalysis) (st : StorageState) (r : MealAnalysis)
    (hexp : env.now - parseTime meal.timestamp > MEAL_TIMEOUT_MS)
    (hr : st.files (mealFilename meal.id) = some r) :
    processMeal
      { env with
          readImageBase64 := rd
          analyzeFoodFromText := ft
          analyzeFood := fi
          analyzeFoodBeforeAfter := fba } meal st
      = processMeal env meal st ∧
    ∃ st2, processMeal env meal st = .ok st2 ∧
      getMealById meal.id st2 = some { r with isLoading := false, hasError := true } := by
  constructor
  · unfold processMeal
    dsimp only
    rw [if_pos hexp, if_pos hexp]
  · unfold processMeal
    rw [if_pos hexp]
    simp only [updateMealAnalysisError_ok meal.id st r hr]
    refine ⟨_, rfl, ?_⟩
    unfold getMealById
    dsimp only
    rw [writeFile_self]

/-- An environment whose clock reads `t` and whose collaborators succeed. -/
def envAt (t : Int) : PipelineEnv :=
  { now := t
    readImageBase64 := fun _ => .ok "base64data"
    analyzeFoodFromText := fun _ => .ok EMPTY_ANALYSIS
    analyzeFood := fun _ _ => .ok EMPTY_ANALYSIS
    analyzeFoodBeforeAfter := fun _ _ _ => .ok EMPTY_ANALYSIS }

/-- A pending record created at epoch-millisecond 1000. -/
def expiredMeal : MealAnalysis :=
  { id := "m1", timestamp := "1000", imageUri := "images/a.jpg", afterImageUri := ""
    analysis := none, comment := "", isLoading := true, hasError := false }

/-- The store holding `expiredMeal`. -/
def expiredState : StorageState :=
  { files := writeFile (mealFilename "m1") expiredMeal (fun _ => none)
    images := []
    index := [{ id := "m1", timestamp := "1000", filename := mealFilename "m1" }] }

/-- The C7 witness environment: same clock, every collaborator replaced by
a failing one. -/
def patchedFailingEnv : PipelineEnv :=
  { envAt 100000000000 with
      readImageBase64 := fun _ => .error "io failure"
      analyzeFoodFromText := fun _ => .error "network failure"
      analyzeFood := fun _ _ => .error "network failure"
      analyzeFoodBeforeAfter := fun _ _ _ => .error "network failure" }

/-- Witness for C7 at a concrete input far beyond the 24-hour window. -/
theorem processMeal_expired_skips_inference_witness :
    processMeal patchedFailingEnv expiredMeal expiredState
      = processMeal (envAt 100000000000) expiredMeal expiredState ∧
    ∃ st2, processMeal (envAt 100000000000) expiredMeal expiredState = .ok st2 ∧
      getMealById expiredMeal.id st2
        = some { expiredMeal with isLoading := false, hasError := true } :=
  processMeal_expired_skips_inference (envAt 100000000000) _ _ _ _
    expiredMeal expiredState expiredMeal (by decide) rfl

theorem processMeal_isOk (env : PipelineEnv) (meal : MealAnalysis) (st : StorageState) :
    (processMeal env meal st).isOk = true := by
  unfold processMeal
  split
  · split <;> rfl
  · split
    · rfl
    · split
      · rfl
      · dsimp only
        split <;> rfl

theorem resumeLoop_isOk (env : PipelineEnv) (meals : List MealAnalysis)
    (st : StorageState) : (resumeLoop env meals st).isOk = true := by
  induction meals generalizing st with
  | nil => rfl
  | cons m rest ih =>
    unfold resumeLoop
    split
    · exact ih _
    · exact ih _

theorem resumePending_isOk (env : PipelineEnv) (st : StorageState) :
    (resumePending env st).isOk = true := by
  unfold resumePending
  exact resumeLoop_isOk env _ st

/-- C8: `processMeal` always resolves (never rejects) for every collaborator
behavior; `resumePending` likewise always resolves (its per-record
try/catch keeps the loop going); and when the inference dispatch fails on a
stored record, the failure is absorbed into `hasError = true,
isLoading = false` on that record via the store's markError. -/
theorem processMeal_absorbs_failures (env : PipelineEnv) (meal : MealAnalysis)
    (st : StorageState) :
    (processMeal env meal st).isOk = true ∧
    (resumePending env st).isOk = true ∧
    (∀ r e, st.files (mealFilename meal.id) = some r →
      meal.hasError = false →
      ¬ env.now - parseTime meal.timestamp > MEAL_TIMEOUT_MS →
      analyzeDispatch env meal = .error e →
      ∃ st2, processMeal env meal st = .ok st2 ∧
        getMealById meal.id st2
          = some { r with isLoading := false, hasError := true }) := by
  refine ⟨processMeal_isOk env meal st, resumePending_isOk env st, ?_⟩
  intro r e hr hhe hexp hda
  have hmec : markErrorCaught meal.id st
      = { st with
          files := writeFile (mealFilename meal.id)
            ({ r with isLoading := false, hasError := true }) st.files } := by
    unfold markErrorCaught
    rw [updateMealAnalysisError_ok meal.id st r hr]
  have hpm : processMeal env meal st = .ok (markErrorCaught meal.id st) := by
    unfold processMeal
    rw [if_neg hexp, if_neg (by simp [hhe]), hda]
  refine ⟨markErrorCaught meal.id st, hpm, ?_⟩
  rw [hmec]
  unfold getMealById
  dsimp only
  rw [writeFile_self]

/-- An environment whose external collaborators all fail. -/
def failingEnv : PipelineEnv :=
  { now := 2000
    readImageBase64 := fun _ => .error "io failure"
    analyzeFoodFromText := fun _ => .error "network failure"
    analyzeFood := fun _ _ => .error "network failure"
    analyzeFoodBeforeAfter := fun _ _ _ => .error "network failure" }

/-- A fresh pending text-only record. -/
def pendingTextMeal : MealAnalysis :=
  { id := "m1", timestamp := "1000", imageUri := "", afterImageUri := ""
    analysis := none, comment := "toast", isLoading := true, hasError := false }

/-- The store holding `pendingTextMeal`. -/
def pendingTextState : StorageState :=
  { files := writeFile (mealFilename "m1") pendingTextMeal (fun _ => none)
    images := []
    index := [{ id := "m1", timestamp := "1000", filename := mealFilename "m1" }] }

/-- Witness for C8 at a concrete input with an always-failing collaborator. -/
theorem processMeal_absorbs_failures_witness :
    (processMeal failingEnv pendingTextMeal pendingTextState).isOk = true ∧
    (resumePending failingEnv pendingTextState).isOk = true ∧
    ∃ st2, processMeal failingEnv pendingTextMeal pendingTextState = .ok st2 ∧
      getMealById pendingTextMeal.id st2
        = some { pendingTextMeal with isLoading := false, hasError := true } := by
  have h := processMeal_absorbs_failures failingEnv pendingTextMeal pendingTextState
  exact ⟨h.1, h.2.1, h.2.2 pendingTextMeal "network failure" rfl rfl (by decide) (by rfl)⟩

/-
Retention cap (C1).
-/

/-- The blob URI `saveMealAnalysis` creates for a meal's before-image. -/
def blobUri (now : Int) (m : MealAnalysis) : String :=
  imagesDir ++ imageFilename m.imageUri m.id "" now

/-- Folding `saveMealAnalysis` over a list of meals, oldest first, with a
fixed clock, stopping at the first rejection. -/
def foldSave (now : Int) : List MealAnalysis → StorageState → Except String StorageState
  | [], st => .ok st
  | m :: rest, st =>
    match saveMealAnalysis now m st with
    | .ok st2 => foldSave now rest st2
    | .error e => .error e

/-- Invariant carried while folding `saveMealAnalysis` over valid meals
with distinct ids and external image sources: the index holds the newest
(at most) 50 entries in recency order, meals evicted from that window have
no record file, and every copied blob is still in the image directory. -/
structure SaveInv (now : Int) (pre : List MealAnalysis) (st : StorageState) : Prop where
  index_eq : st.index = ((pre.reverse).map savedEntry).take 50
  evicted_none : ∀ m ∈ pre, m ∉ pre.reverse.take 50 →
    st.files (mealFilename m.id) = none
  blobs : ∀ m ∈ pre, blobUri now m ∈ st.images

theorem take_cons_take {α : Type} (a : α) (l : List α) (k : Nat) :
    (a :: l.take (k + 1)).take (k + 1) = (a :: l).take (k + 1) := by
  rw [List.take_succ_cons, List.take_succ_cons, List.take_take]
  have hk : k ⊓ (k + 1) = k := by omega
  rw [hk]

theorem saveInv_step (now : Int) (pre : List MealAnalysis) (m : MealAnalysis)
    (st : StorageState) (hinv : SaveInv now pre st)
    (hv : ¬ saveInvalid m) (hfresh : ¬ jsStartsWith m.imageUri imagesDir)
    (hnodup : ((pre ++ [m]).map (fun x => x.id)).Nodup) :
    ∃ st2, saveMealAnalysis now m st = .ok st2 ∧ SaveInv now (pre ++ [m]) st2 := by
  rw [List.map_append, List.nodup_append] at hnodup
  obtain ⟨hpre, -, hdisj⟩ := hnodup
  have hid : m.id ∉ pre.map (fun x => x.id) := fun hmem => hdisj hmem (by simp)
  have hidne : ∀ m2 ∈ pre, m2.id ≠ m.id := by
    intro m2 hm2 h
    exact hid (h ▸ List.mem_map_of_mem (fun x => x.id) hm2)
  have hfilter : st.index.filter (fun e => e.id ≠ m.id) = st.index := by
    apply List.filter_eq_self.mpr
    intro e he
    rw [hinv.index_eq] at he
    have he2 := List.take_subset _ _ he
    rw [List.mem_map] at he2
    obtain ⟨m0, hm0, rfl⟩ := he2
    rw [List.mem_reverse] at hm0
    exact decide_eq_true (hidne m0 hm0)
  have hrev : (pre ++ [m]).reverse = m :: pre.reverse := by
    rw [List.reverse_append]
    rfl
  refine ⟨_, saveMealAnalysis_eq now m st hv, ⟨?_, ?_, ?_⟩⟩
  · -- index
    dsimp only
    rw [hfilter, hinv.index_eq, hrev, List.map_cons]
    rw [show (50 : Nat) = 49 + 1 from rfl]
    exact take_cons_take _ _ 49
  · -- evicted files
    dsimp only
    rw [hfilter, hinv.index_eq, hrev]
    intro m2 hm2 hnot
    rw [show (50 : Nat) = 49 + 1 from rfl, List.take_succ_cons, List.mem_cons] at hnot
    push_neg at hnot
    obtain ⟨hne_m, hnot49⟩ := hnot
    rcases List.mem_append.mp hm2 with hm2p | hm2m
    swap
    · exact absurd (List.mem_singleton.mp hm2m) hne_m
    rw [show (50 : Nat) = 49 + 1 from rfl, List.drop_succ_cons, List.drop_take]
    by_cases hlen : pre.length ≤ 49
    · -- no eviction happens, but then nothing is outside the window either
      exfalso
      have : m2 ∈ pre.reverse.take 49 := by
        rw [List.take_of_length_le (by simpa using hlen)]
        simpa using hm2p
      exact hnot49 this
    · push_neg at hlen
      have h49 : 49 < pre.reverse.length := by simpa using hlen
      have h49m : 49 < (pre.reverse.map savedEntry).length := by simpa using hlen
      set pr49 := pre.reverse.get ⟨49, h49⟩ with hpr49
      have hdropc : (pre.reverse.map savedEntry).drop 49
          = savedEntry pr49 :: (pre.reverse.map savedEntry).drop 50 := by
        rw [List.drop_eq_getElem_cons h49m]
        congr 1
        simp [List.getElem_map, hpr49]
      rw [hdropc]
      rw [show (49 + 1 - 49 : Nat) = 1 from rfl]
      rw [List.take_succ_cons, List.take_zero]
      have hpr49mem : pr49 ∈ pre := by
        rw [← List.mem_reverse]
        exact List.get_mem _ _ _
      by_cases hm249 : m2 = pr49
      · subst hm249
        exact deleteFile_self _ _
      · have hne1 : mealFilename m2.id ≠ mealFilename pr49.id := by
          intro h
          exact hm249 (List.inj_on_of_nodup_map hpre hm2p hpr49mem (mealFilename_inj h))
        have hne2 : mealFilename m2.id ≠ mealFilename m.id := by
          intro h
          exact hidne m2 hm2p (mealFilename_inj h)
        have hold : st.files (mealFilename m2.id) = none := by
          apply hinv.evicted_none m2 hm2p
          intro hmem50
          rw [show (50 : Nat) = 49 + 1 from rfl, List.take_succ,
            List.getElem?_eq_getElem h49] at hmem50
          rcases List.mem_append.mp hmem50 with h | h
          · exact hnot49 h
          · exact hm249 (List.mem_singleton.mp h)
        dsimp only [List.foldl, savedEntry]
        rw [deleteFile_ne hne1, writeFile_ne hne2]
        exact hold
  · -- blobs
    dsimp only
    intro m2 hm2
    simp only [savedImages]
    rw [if_neg hfresh]
    rcases List.mem_append.mp hm2 with hm2p | hm2m
    · have := hinv.blobs m2 hm2p
      simp [List.mem_append, this]
    · have hm2e : m2 = m := List.mem_singleton.mp hm2m
      subst hm2e
      simp [List.mem_append, blobUri]

theorem foldSave_inv (now : Int) (ms : List MealAnalysis) : ∀ (pre : List MealAnalysis)
    (st : StorageState), SaveInv now pre st →
    (∀ m ∈ ms, ¬ saveInvalid m) →
    (∀ m ∈ ms, ¬ jsStartsWith m.imageUri imagesDir) →
    ((pre ++ ms).map (fun x => x.id)).Nodup →
    ∃ st2, foldSave now ms st = .ok st2 ∧ SaveInv now (pre ++ ms) st2 := by
  induction ms with
  | nil =>
    intro pre st hinv _ _ _
    exact ⟨st, rfl, by simpa using hinv⟩
  | cons m rest ih =>
    intro pre st hinv hv hfresh hnodup
    have hsub : List.Sublist ((pre ++ [m]).map (fun x => x.id))
        ((pre ++ m :: rest).map (fun x => x.id)) :=
      List.Sublist.map _ ((List.cons_sublist_cons.mpr (List.nil_sublist rest)).append_left pre)
    obtain ⟨st1, heq1, hinv1⟩ := saveInv_step now pre m st hinv (hv m (by simp))
      (hfresh m (by simp)) (hnodup.sublist hsub)
    obtain ⟨st2, heq2, hinv2⟩ := ih (pre ++ [m]) st1 hinv1
      (fun x hx => hv x (by simp [hx])) (fun x hx => hfresh x (by simp [hx]))
      (by simpa [List.append_assoc] using hnodup)
    refine ⟨st2, ?_, by simpa [List.append_assoc] using hinv2⟩
    unfold foldSave
    rw [heq1]
    exact heq2

/-- C1: folding `saveMealAnalysis` over `50 + k` valid meals with distinct
ids and external image sources, starting from an empty store, leaves
exactly 50 index entries; the `k` oldest-by-insertion meals have become
unreadable via `getMealById` (their record files were deleted on
eviction), while their copied image blobs are still on disk. -/
theorem retention_cap (now : Int) (ms : List MealAnalysis) (k : Nat)
    (hk : 0 < k) (hlen : ms.length = 50 + k)
    (hv : ∀ m ∈ ms, ¬ saveInvalid m)
    (hfresh : ∀ m ∈ ms, ¬ jsStartsWith m.imageUri imagesDir)
    (hnodup : (ms.map (fun x => x.id)).Nodup) :
    ∃ st, foldSave now ms emptyState = .ok st ∧
      st.index.length = 50 ∧
      (∀ m ∈ ms.take k, getMealById m.id st = none) ∧
      (∀ m ∈ ms.take k, blobUri now m ∈ st.images) := by
  have hinv0 : SaveInv now [] emptyState :=
    ⟨rfl, (by intro m hm; cases hm), (by intro m hm; cases hm)⟩
  obtain ⟨st, heq, hinv⟩ := foldSave_inv now ms [] emptyState hinv0 hv hfresh
    (by simpa using hnodup)
  rw [List.nil_append] at hinv
  have hkept : ms.reverse.take 50 = (ms.drop k).reverse := by
    have hsplit : ms.reverse = (ms.drop k).reverse ++ (ms.take k).reverse := by
      rw [← List.reverse_append, List.take_append_drop]
    have hdlen : ((ms.drop k).reverse).length = 50 := by
      rw [List.length_reverse, List.length_drop, hlen]
      omega
    rw [hsplit, ← hdlen, List.take_left]
  have hdisj2 : ∀ m ∈ ms.take k, m ∉ ms.drop k := by
    intro m hm hmd
    have hids : (ms.map (fun x => x.id)).Nodup := hnodup
    have : ms.map (fun x => x.id)
        = (ms.take k).map (fun x => x.id) ++ (ms.drop k).map (fun x => x.id) := by
      rw [← List.map_append, List.take_append_drop]
    rw [this, List.nodup_append] at hids
    exact hids.2.2 (List.mem_map_of_mem _ hm) (List.mem_map_of_mem _ hmd)
  refine ⟨st, heq, ?_, ?_, ?_⟩
  · rw [hinv.index_eq, List.length_take, List.length_map, List.length_reverse, hlen]
    omega
  · intro m hm
    have hnotin : m ∉ ms.reverse.take 50 := by
      rw [hkept, List.mem_reverse]
      exact hdisj2 m hm
    exact hinv.evicted_none m (List.take_subset k ms hm) hnotin
  · intro m hm
    exact hinv.blobs m (List.take_subset k ms hm)

/-- The `i`-th distinct valid meal of the C1 witness. -/
def c1Meal (i : Nat) : MealAnalysis :=
  { id := "c" ++ toString i, timestamp := toString (1000 + i)
    imageUri := "photo" ++ toString i ++ ".jpg", afterImageUri := ""
    analysis := some EMPTY_ANALYSIS, comment := "", isLoading := false, hasError := false }

/-- Fifty-one distinct valid meals. -/
def c1Meals : List MealAnalysis := (List.range 51).map c1Meal

/-- Witness for C1 with 51 creates (k = 1). -/
theorem retention_cap_witness :
    ∃ st, foldSave 0 c1Meals emptyState = .ok st ∧
      st.index.length = 50 ∧
      (∀ m ∈ c1Meals.take 1, getMealById m.id st = none) ∧
      (∀ m ∈ c1Meals.take 1, blobUri 0 m ∈ st.images) :=
  retention_cap 0 c1Meals 1 (by decide) (by decide) (by decide) (by decide) (by decide)

end OpenMeal
